import Mathlib

/-!
Verification of the mcap-videoify transcode driver (src/main.rs) against its
natural-language specification.

The driver is shallowly embedded: records, channels and schemas are plain
structures; the external collaborators (protobuf descriptor-set parsing,
protobuf payload decoding, image decoding, the H.264 encoder and the
serializer for the output message) are parameters gathered in an `Env`
record, exactly as the spec declares them out of scope.  The driver state
(`St`) carries the two per-topic registries (`encoders_by_topic` and
`topic_channels` in the source) as association lists together with an
append-only event log recording every writer-visible action: encoder
creation, channel registration (`add_channel`), and the two `write` call
sites (pass-through and video).  Fallible external calls return `Option`;
`anyhow` errors propagated with `?` become `StepResult.err`; `unwrap` /
`expect` / slice-index panics become `StepResult.fault`.
-/

set_option maxHeartbeats 1000000

namespace Videoify

/-- Raw bytes, modelled as lists of naturals. -/
abbrev Bytes := List Nat

/-- An mcap schema attached to a channel (`mcap::Schema`). -/
structure Schema where
  name : String
  encoding : String
  data : Bytes
deriving DecidableEq

/-- An mcap channel (`mcap::Channel`): topic, payload encoding, optional
schema reference and free-form metadata. -/
structure Channel where
  topic : String
  messageEncoding : String
  schema : Option Schema
  metadata : List (String × String)
deriving DecidableEq

/-- An mcap record (`mcap::Message`): owning channel, payload bytes and the
three timing/sequence fields. -/
structure Message where
  channel : Channel
  data : Bytes
  logTime : Nat
  publishTime : Nat
  sequence : Nat
deriving DecidableEq

/-- One file of a parsed protobuf `FileDescriptorSet`, reduced to the list of
fully qualified message-type names it declares (all the driver queries). -/
structure FileDescr where
  messageNames : List String
deriving DecidableEq

/-- The three fields the driver extracts from a decoded CompressedImage
payload: the canonical timestamp, the frame id and the encoded image bytes. -/
structure Extracted where
  tsSeconds : Int
  tsNanos : Int
  frameId : String
  imageData : Bytes
deriving DecidableEq

/-- A decoded raster image (`img.to_rgb8()`): dimensions plus pixel bytes. -/
structure Raster where
  width : Nat
  height : Nat
  pixels : Bytes
deriving DecidableEq

/-- The output `foxglove.CompressedVideo` message the driver assembles. -/
structure CompressedVideoMsg where
  tsSeconds : Int
  tsNanos : Int
  frameId : String
  format : String
  data : Bytes
deriving DecidableEq

/-- One openh264 encoder instance: the dimensions it was configured with at
creation and the number of frames submitted so far. -/
structure EncSt where
  width : Nat
  height : Nat
  frames : Nat
deriving DecidableEq

/-- The external collaborators consumed by the driver, as declared out of
scope by the spec: descriptor-set parsing, dynamic payload decoding, image
decoding, the video encoder (the bitstream produced for the n-th frame
submitted on a topic) and protobuf serialization of the output message. -/
structure Env where
  parseDescriptorSet : Bytes → Option (List FileDescr)
  parsePayload : Bytes → Option Extracted
  decodeImage : Bytes → Option Raster
  encode : String → Nat → Raster → Bytes
  serializeVideo : CompressedVideoMsg → Bytes
  videoSchemaBytes : Bytes

/-- Writer-visible actions of the driver, in execution order: encoder
creation, `add_channel` registration, the pass-through `write` call and the
video `write` call. -/
inductive Event where
  | encoderCreated (topic : String)
  | channelRegistered (topic : String)
  | wrotePass (m : Message)
  | wroteVideo (m : Message)
deriving DecidableEq

/-- Driver state: `encoders_by_topic`, `topic_channels` and the event log. -/
structure St where
  encoders : List (String × EncSt)
  channels : List (String × Channel)
  events : List Event
deriving DecidableEq

/-- The `anyhow` errors `read_it` can return (propagated with `?` or
`bail!`), which `main` prints to stderr before exiting with code 1. -/
inductive RunError where
  | cliBail (msg : String)
  | noInput
  | schemaParse
  | payloadParse
  | imageDecode
deriving DecidableEq

/-- Outcome of processing one record: continue with a new state, return an
`anyhow` error (abort the run, exit code 1), or panic (`unwrap` on
`None` / out-of-bounds index). -/
inductive StepResult where
  | ok (s : St)
  | err (e : RunError) (s : St)
  | fault (s : St)
deriving DecidableEq

/-- The state carried by a step result (events accumulated so far). -/
def stateOf : StepResult → St
  | StepResult.ok s => s
  | StepResult.err _ s => s
  | StepResult.fault s => s

/-- Association-list lookup keyed by topic string (`HashMap` access). -/
def lookupKey {α : Type} : List (String × α) → String → Option α
  | [], _ => none
  | (k, v) :: rest, t => if k = t then some v else lookupKey rest t

/-- Mutation performed by `encoder.encode`: one more frame consumed by the
encoder stored under the given topic. -/
def bumpFrames : List (String × EncSt) → String → List (String × EncSt)
  | [], _ => []
  | (k, v) :: rest, t =>
    if k = t then (k, { v with frames := v.frames + 1 }) :: rest
    else (k, v) :: bumpFrames rest t

/-- Derived output topic: `format!("{topic}_video")` (main.rs line 201). -/
def deriveTopic (t : String) : String := t ++ "_video"

/-- The fully qualified name the driver looks up (main.rs line 165). -/
def targetTypeName : String := ".foxglove.CompressedImage"

/-- The fixed output schema built once per run (main.rs lines 130-134). -/
def compressedVideoSchema (env : Env) : Schema :=
  { name := "foxglove.CompressedVideo", encoding := "protobuf",
    data := env.videoSchemaBytes }

/-- Number of frames already submitted to the encoder of a topic; `0` when
the encoder does not exist yet (its first `encode` call is call number 0). -/
def encFrames (s : St) (t : String) : Nat :=
  match lookupKey s.encoders t with
  | some e => e.frames
  | none => 0

/-- `encoders_by_topic.entry(topic).or_insert_with(..)` (main.rs 203-209):
create the encoder bound to the first frame's dimensions when absent. -/
def ensureEncoder (s : St) (topic : String) (img : Raster) : St :=
  match lookupKey s.encoders topic with
  | some _ => s
  | none =>
    { s with
      encoders := (topic, { width := img.width, height := img.height, frames := 0 }) :: s.encoders,
      events := s.events ++ [Event.encoderCreated topic] }

/-- `topic_channels.entry(topic).or_insert_with_key(..)` (main.rs 233-246):
create the output channel and register it with the writer when absent. -/
def ensureChannel (env : Env) (s : St) (topic : String) : Channel × St :=
  match lookupKey s.channels topic with
  | some ch => (ch, s)
  | none =>
    let newCh : Channel :=
      { topic := topic, messageEncoding := "protobuf",
        schema := some (compressedVideoSchema env), metadata := [] }
    (newCh, { s with
      channels := (topic, newCh) :: s.channels,
      events := s.events ++ [Event.channelRegistered topic] })

/-- The output record assembled for a matching record (main.rs 214-254):
the serialized CompressedVideo payload — canonical timestamp, frame id,
fixed "h264" format tag and the bitstream — on the given output channel,
with the source record's log time, publish time and sequence number. -/
def assembledMsg (env : Env) (m : Message) (ch : Channel) (ex : Extracted)
    (bs : Bytes) : Message :=
  { channel := ch,
    data := env.serializeVideo
      { tsSeconds := ex.tsSeconds, tsNanos := ex.tsNanos, frameId := ex.frameId,
        format := "h264", data := bs },
    logTime := m.logTime, publishTime := m.publishTime, sequence := m.sequence }

/-- The tail of the transcode path (main.rs 203-259): get-or-create the
encoder, encode the frame, assemble the output message, get-or-create and
register the output channel, then write the record only when the bitstream
(the `data` field of the assembled message) is non-empty. -/
def encodeAndWrite (env : Env) (s : St) (m : Message) (topic : String)
    (ex : Extracted) (img : Raster) : StepResult :=
  let count := encFrames s topic
  let s1 := ensureEncoder s topic img
  let bs := env.encode topic count img
  let s2 : St := { s1 with encoders := bumpFrames s1.encoders topic }
  let chs := ensureChannel env s2 topic
  let outMsg : Message := assembledMsg env m chs.1 ex bs
  if bs.length > 0 then
    StepResult.ok { chs.2 with events := chs.2.events ++ [Event.wroteVideo outMsg] }
  else
    StepResult.ok chs.2

/-- The matching-record path (main.rs 160-259): parse the schema bytes
(`?` on failure), index the second descriptor of the set (panic when
absent), look the target type up in that descriptor only (panic when
absent), decode the payload (`?`), decode the image (`?`), then encode and
write. -/
def transcodeStep (env : Env) (s : St) (m : Message) (schema : Schema) : StepResult :=
  match env.parseDescriptorSet schema.data with
  | none => StepResult.err RunError.schemaParse s
  | some descriptors =>
    match descriptors.get? 1 with
    | none => StepResult.fault s
    | some d =>
      if targetTypeName ∈ d.messageNames then
        match env.parsePayload m.data with
        | none => StepResult.err RunError.payloadParse s
        | some ex =>
          match env.decodeImage ex.imageData with
          | none => StepResult.err RunError.imageDecode s
          | some img => encodeAndWrite env s m (deriveTopic m.channel.topic) ex img
      else StepResult.fault s

/-- Processing of one input record (main.rs 146-259): `unwrap` the channel's
optional schema (panic when absent), then classify: a record whose schema
name is not exactly "foxglove.CompressedImage" or whose encoding is not
exactly "protobuf" is written out unchanged; otherwise transcode. -/
def processRecord (env : Env) (s : St) (m : Message) : StepResult :=
  match m.channel.schema with
  | none => StepResult.fault s
  | some schema =>
    if schema.name ≠ "foxglove.CompressedImage" ∨ schema.encoding ≠ "protobuf" then
      StepResult.ok { s with events := s.events ++ [Event.wrotePass m] }
    else
      transcodeStep env s m schema

/-- The record loop: process records in order, stopping at the first
`anyhow` error or panic. -/
def runRecords (env : Env) (s : St) : List Message → StepResult
  | [] => StepResult.ok s
  | m :: rest =>
    match processRecord env s m with
    | StepResult.ok s1 => runRecords env s1 rest
    | r => r

/-- Empty driver state at the start of a run. -/
def initSt : St := { encoders := [], channels := [], events := [] }

/-- Configuration accumulated by the argument loop (main.rs 67-108). -/
structure CliState where
  input : Option String
  output : String
  silent : Bool
  warmup : Bool
deriving DecidableEq

/-- Outcome of the argument loop: a configuration, an immediate exit 0 via
`--help`, or an `anyhow::bail!` error. -/
inductive CliResult where
  | ok (c : CliState)
  | helpExit
  | bail (msg : String)
deriving DecidableEq

/-- The option table of `get_help_msg` (main.rs 28-34). -/
def helpOptions : List (String × String) :=
  [("-i, --input <FILE>", "Input MCAP file path (required)"),
   ("-o, --output <FILE>", "Output MCAP file path (default: compressed_video.mcap)"),
   ("--silent", "Disable verbose output. Errors and build logs will still be printed."),
   ("--warm-up", "Warm up the Rust environment and exit (for CI/Docker)"),
   ("-h, --help", "Show this help message")]

/-- Longest option string, used for alignment (main.rs 37-40). -/
def maxOptionLen : Nat := (helpOptions.map (fun p => p.1.length)).foldr max 0

/-- Left-align a string in a field of the given width, as Rust's
width-parameterised format specifier does. -/
def padTo (s : String) (w : Nat) : String :=
  s ++ String.mk (List.replicate (w - s.length) ' ')

/-- The usage/help text built by `get_help_msg` (main.rs 27-58). -/
def getHelpMsg : String :=
  "mcap-videoify - Convert MCAP files containing image data to compressed video\n\n"
  ++ "Usage:\n"
  ++ "  mcap-videoify [OPTIONS]\n\n"
  ++ "Options:\n"
  ++ helpOptions.foldl (fun acc p => acc ++ "  " ++ padTo p.1 maxOptionLen ++ "  " ++ p.2 ++ "\n") ""
  ++ "\nDescription:\n"
  ++ "  This tool processes MCAP files containing image data and converts them to\n"
  ++ "  compressed H.264 video streams. It preserves the original message timing\n"
  ++ "  and metadata while significantly reducing file size through video compression."

/-- The `bail!` message for an unrecognized argument (main.rs 105), which
appends the full help text. -/
def unexpectedMsg (a : String) : String :=
  "Unexpected argument: " ++ a ++ ". \n\n " ++ getHelpMsg

/-- The argument loop of `read_it` (main.rs 73-108). -/
def parseArgs : CliState → List String → CliResult
  | c, [] => CliResult.ok c
  | c, a :: rest =>
    if a = "--input" ∨ a = "-i" then
      match rest with
      | v :: rest2 => parseArgs { c with input := some v } rest2
      | [] => CliResult.bail "Missing value for --input/-i argument"
    else if a = "--output" ∨ a = "-o" then
      match rest with
      | v :: rest2 => parseArgs { c with output := v } rest2
      | [] => CliResult.bail "Missing value for --output/-o argument"
    else if a = "--silent" then
      parseArgs { c with silent := true } rest
    else if a = "--warm-up" then
      parseArgs { c with warmup := true } rest
    else if a = "--help" ∨ a = "-h" then
      CliResult.helpExit
    else
      CliResult.bail (unexpectedMsg a)

/-- The argument strings the loop recognizes (the match arms of
main.rs 75-103). -/
def knownFlags : List String :=
  ["--input", "-i", "--output", "-o", "--silent", "--warm-up", "--help", "-h"]

/-- How the process run ends: normal completion (exit 0 after `finish`),
an early exit 0 (`--help`, `--warm-up`), an `anyhow` error reaching `main`
(printed to stderr, exit 1), or a panic abort. -/
inductive RunExit where
  | success
  | earlyExit0
  | errorExit (e : RunError)
  | panicAbort
deriving DecidableEq

/-- Result of `read_it`: the writer-visible event log, whether the writer's
`finish` step ran, and how the process ends. -/
structure RunResult where
  events : List Event
  finished : Bool
  exit : RunExit
deriving DecidableEq

/-- Initial CLI state: no input, the caller-supplied default output path,
not silent, no warm-up. -/
def initCli (outputDefault : String) : CliState :=
  { input := none, output := outputDefault, silent := false, warmup := false }

/-- `read_it` (main.rs 66-264): parse the arguments starting at index 1,
honour `--help` and `--warm-up`, require an input path, run the record
loop, and call `finish` only when the loop completes without error. -/
def readIt (env : Env) (outputDefault : String) (argv : List String)
    (records : List Message) : RunResult :=
  match parseArgs (initCli outputDefault) (argv.drop 1) with
  | CliResult.helpExit => { events := [], finished := false, exit := RunExit.earlyExit0 }
  | CliResult.bail msg =>
    { events := [], finished := false, exit := RunExit.errorExit (RunError.cliBail msg) }
  | CliResult.ok c =>
    if c.warmup then { events := [], finished := false, exit := RunExit.earlyExit0 }
    else
      match c.input with
      | none => { events := [], finished := false, exit := RunExit.errorExit RunError.noInput }
      | some _ =>
        match runRecords env initSt records with
        | StepResult.ok s => { events := s.events, finished := true, exit := RunExit.success }
        | StepResult.err e s => { events := s.events, finished := false, exit := RunExit.errorExit e }
        | StepResult.fault s => { events := s.events, finished := false, exit := RunExit.panicAbort }

/-- Observable outcome of `main`: exit code, the error printed on the error
stream (if any), whether `finish` ran, and the event log. -/
structure MainResult where
  exitCode : Nat
  stderrErr : Option RunError
  finished : Bool
  events : List Event
deriving DecidableEq

/-- `main` (main.rs 266-271): run `read_it` with default output path
"compressed_video.mcap"; on `Err` print the error to stderr and exit 1; a
panic aborts the process (code 101); otherwise exit 0. -/
def mainRun (env : Env) (argv : List String) (records : List Message) : MainResult :=
  let r := readIt env "compressed_video.mcap" argv records
  match r.exit with
  | RunExit.success => { exitCode := 0, stderrErr := none, finished := r.finished, events := r.events }
  | RunExit.earlyExit0 => { exitCode := 0, stderrErr := none, finished := r.finished, events := r.events }
  | RunExit.errorExit e => { exitCode := 1, stderrErr := some e, finished := r.finished, events := r.events }
  | RunExit.panicAbort => { exitCode := 101, stderrErr := none, finished := r.finished, events := r.events }

/-- Topics of the encoder-creation events of a log, in order. -/
def encoderCreations (evs : List Event) : List String :=
  evs.filterMap fun e =>
    match e with
    | Event.encoderCreated t => some t
    | _ => none

/-- Topics of the channel-registration events of a log, in order. -/
def channelRegistrations (evs : List Event) : List String :=
  evs.filterMap fun e =>
    match e with
    | Event.channelRegistered t => some t
    | _ => none

/-- Whether an event is one of the two `write` call sites. -/
def isWriteEvent : Event → Bool
  | Event.wrotePass _ => true
  | Event.wroteVideo _ => true
  | _ => false

/-- The subsequence of write events of a log. -/
def writesOf (evs : List Event) : List Event := evs.filter isWriteEvent

/-- Every video-write event is preceded, in the log, by a registration of
its channel's topic. -/
def WellFormedEvents (evs : List Event) : Prop :=
  ∀ pre w post, evs = pre ++ Event.wroteVideo w :: post →
    w.channel.topic ∈ channelRegistrations pre

/-- All fully qualified message-type names of a parsed descriptor set. -/
def allMessageNames (ds : List FileDescr) : List String :=
  (ds.map FileDescr.messageNames).flatten

/-- Whether `pat` is a leading segment of `l`. -/
def startsWithChars : List Char → List Char → Bool
  | [], _ => true
  | _ :: _, [] => false
  | p :: ps, c :: cs => p == c && startsWithChars ps cs

/-- Whether `pat` occurs contiguously anywhere in `l`. -/
def hasSegment : List Char → List Char → Bool
  | pat, [] => startsWithChars pat []
  | pat, c :: cs => startsWithChars pat (c :: cs) || hasSegment pat cs

/-- Whether a string contains the literal text "Usage:", the marker of the
usage/help message. -/
def mentionsUsage (s : String) : Bool := hasSegment "Usage:".data s.data

/-- An environment in which every external parse and decode fails and the
encoder emits nothing; enough for records that never reach those calls. -/
def defaultEnv : Env :=
  { parseDescriptorSet := fun _ => none,
    parsePayload := fun _ => none,
    decodeImage := fun _ => none,
    encode := fun _ _ _ => [],
    serializeVideo := fun _ => [],
    videoSchemaBytes := [] }

/-- An environment in which every external call succeeds and the encoder
always emits a one-byte bitstream. -/
def goodEnv : Env :=
  { parseDescriptorSet := fun _ => some [{ messageNames := [] }, { messageNames := [targetTypeName] }],
    parsePayload := fun _ => some { tsSeconds := 1, tsNanos := 2, frameId := "f0", imageData := [9] },
    decodeImage := fun _ => some { width := 4, height := 4, pixels := [0, 0, 0] },
    encode := fun _ _ _ => [7],
    serializeVideo := fun v => v.data,
    videoSchemaBytes := [3] }

/-- Like `goodEnv` but the encoder always returns a zero-length bitstream. -/
def emptyBitstreamEnv : Env := { goodEnv with encode := fun _ _ _ => [] }

/-- A schema carrying the still-image signature. -/
def imgSchema : Schema :=
  { name := "foxglove.CompressedImage", encoding := "protobuf", data := [1] }

/-- An input channel carrying the still-image signature. -/
def camChannel : Channel :=
  { topic := "/cam", messageEncoding := "protobuf", schema := some imgSchema, metadata := [] }

/-- A matching input record. -/
def camMsg : Message :=
  { channel := camChannel, data := [2], logTime := 10, publishTime := 11, sequence := 3 }

/-- A schema that does not carry the still-image signature. -/
def imuSchema : Schema :=
  { name := "imu.Data", encoding := "protobuf", data := [] }

/-- A channel that does not match the still-image signature. -/
def imuChannel : Channel :=
  { topic := "/imu", messageEncoding := "protobuf", schema := some imuSchema, metadata := [] }

/-- A non-matching input record. -/
def imuMsg : Message :=
  { channel := imuChannel, data := [5], logTime := 20, publishTime := 21, sequence := 4 }

/-- A channel whose optional schema reference is absent. -/
def noSchemaChannel : Channel :=
  { topic := "/bare", messageEncoding := "protobuf", schema := none, metadata := [] }

/-- A record on a channel without a schema reference. -/
def noSchemaMsg : Message :=
  { channel := noSchemaChannel, data := [6], logTime := 30, publishTime := 31, sequence := 5 }

/-- An environment whose descriptor-set parse yields a single file that
does contain the target type name. -/
def singleFileEnv : Env :=
  { defaultEnv with parseDescriptorSet := fun _ => some [{ messageNames := [targetTypeName] }] }

/-- An environment whose descriptor-set parse yields two files with the
target type name only in the first. -/
def firstFileEnv : Env :=
  { defaultEnv with
    parseDescriptorSet := fun _ => some [{ messageNames := [targetTypeName] }, { messageNames := [] }] }

theorem str_data_append (a b : String) : (a ++ b).data = a.data ++ b.data := by
  cases a; cases b; rfl

/-- Claim C1: a record whose channel schema name is not exactly
"foxglove.CompressedImage" or whose payload encoding is not exactly
"protobuf" is written to the output unchanged: the write event carries the
very same record, hence the same payload bytes, channel association, log
timestamp, publish timestamp and sequence number. -/
theorem C1_passThroughUnchanged (env : Env) (s : St) (m : Message) (schema : Schema)
    (hschema : m.channel.schema = some schema)
    (hnm : schema.name ≠ "foxglove.CompressedImage" ∨ schema.encoding ≠ "protobuf") :
    processRecord env s m =
      StepResult.ok { s with events := s.events ++ [Event.wrotePass m] } := by
  simp only [processRecord, hschema]
  rw [if_pos hnm]

/-- Witness for C1 on a concrete non-matching record. -/
theorem C1_witness :
    processRecord defaultEnv initSt imuMsg =
      StepResult.ok { initSt with events := initSt.events ++ [Event.wrotePass imuMsg] } :=
  C1_passThroughUnchanged defaultEnv initSt imuMsg imuSchema rfl (Or.inl (by decide))

/-- Claim C5 (code behaviour at the failing inputs): the source locates the
target message type via the fixed index 1 of the parsed descriptor set
(`descriptors[1]`, main.rs line 164) instead of searching the whole set by
name.  On a matching record whose schema parses to a set that contains
".foxglove.CompressedImage" — as a one-file set, or in the first of two
files — the run panics (`fault`) instead of resolving the type, and no
`TypeNotFoundError`-style error value is produced. -/
theorem C5_positionalLookupFault :
    (targetTypeName ∈ allMessageNames [{ messageNames := [targetTypeName] }] ∧
     processRecord singleFileEnv initSt camMsg = StepResult.fault initSt) ∧
    (targetTypeName ∈
       allMessageNames [{ messageNames := [targetTypeName] }, { messageNames := [] }] ∧
     processRecord firstFileEnv initSt camMsg = StepResult.fault initSt) := by
  refine ⟨⟨?_, rfl⟩, ⟨?_, rfl⟩⟩ <;> simp [allMessageNames]

/-- Claim C6 (counterexample): a record on a channel whose optional schema
reference is absent does not pass through unchanged; the driver panics on
`channel.schema.as_ref().unwrap()` (main.rs line 148) before
classification, so pass-through processing can fault. -/
theorem C6_counterexample :
    noSchemaMsg.channel.schema = none ∧
    processRecord defaultEnv initSt noSchemaMsg = StepResult.fault initSt :=
  ⟨rfl, rfl⟩

/-- Claim C6 (amended): for every input record whose channel carries a
schema reference and does not match the still-image signature,
pass-through processing always succeeds without raising any error kind or
faulting; a record whose channel lacks a schema reference instead faults
before classification. -/
theorem C6_amendedSafety :
    (∀ (env : Env) (s : St) (m : Message) (schema : Schema),
      m.channel.schema = some schema →
      (schema.name ≠ "foxglove.CompressedImage" ∨ schema.encoding ≠ "protobuf") →
      ∃ s', processRecord env s m = StepResult.ok s') ∧
    (∀ (env : Env) (s : St) (m : Message),
      m.channel.schema = none → processRecord env s m = StepResult.fault s) := by
  constructor
  · intro env s m schema hschema hnm
    refine ⟨{ s with events := s.events ++ [Event.wrotePass m] }, ?_⟩
    simp only [processRecord, hschema]
    rw [if_pos hnm]
  · intro env s m hnone
    simp only [processRecord, hnone]

/-- Witness for the amended C6 at concrete records. -/
theorem C6_witness :
    (∃ s', processRecord defaultEnv initSt imuMsg = StepResult.ok s') ∧
    processRecord defaultEnv initSt noSchemaMsg = StepResult.fault initSt :=
  ⟨C6_amendedSafety.1 defaultEnv initSt imuMsg imuSchema rfl (Or.inl (by decide)),
   C6_amendedSafety.2 defaultEnv initSt noSchemaMsg rfl⟩

/-- Claim C8: the derived output topic is exactly the input topic with the
fixed suffix "_video" appended, and the derivation is injective: distinct
input topics always derive distinct output topics. -/
theorem C8_topicDerivation :
    (∀ t, deriveTopic t = t ++ "_video") ∧
    ∀ t1 t2, deriveTopic t1 = deriveTopic t2 → t1 = t2 := by
  refine ⟨fun t => rfl, fun t1 t2 h => ?_⟩
  have hd : t1.data ++ "_video".data = t2.data ++ "_video".data := by
    have h2 := congrArg String.data h
    simpa only [deriveTopic, str_data_append] using h2
  have h3 := List.append_cancel_right hd
  cases t1; cases t2
  exact congrArg String.mk h3

/-- Witness for C8 at a concrete topic. -/
theorem C8_witness : deriveTopic "/cam" = "/cam" ++ "_video" ∧ "/cam" = "/cam" :=
  ⟨C8_topicDerivation.1 "/cam", C8_topicDerivation.2 "/cam" "/cam" rfl⟩

theorem writesOf_append (a b : List Event) :
    writesOf (a ++ b) = writesOf a ++ writesOf b := by
  simp [writesOf, List.filter_append]

theorem encoderCreations_append (a b : List Event) :
    encoderCreations (a ++ b) = encoderCreations a ++ encoderCreations b := by
  simp [encoderCreations, List.filterMap_append]

theorem channelRegistrations_append (a b : List Event) :
    channelRegistrations (a ++ b) = channelRegistrations a ++ channelRegistrations b := by
  simp [channelRegistrations, List.filterMap_append]

/-- Under the hypotheses that make a record reach the transcode tail,
`processRecord` is exactly `encodeAndWrite` on the derived topic. -/
theorem processRecord_transcodes (env : Env) (s : St) (m : Message) (schema : Schema)
    (ds : List FileDescr) (d : FileDescr) (ex : Extracted) (img : Raster)
    (hschema : m.channel.schema = some schema)
    (hname : schema.name = "foxglove.CompressedImage")
    (henc : schema.encoding = "protobuf")
    (hds : env.parseDescriptorSet schema.data = some ds)
    (hd : ds.get? 1 = some d)
    (htgt : targetTypeName ∈ d.messageNames)
    (hex : env.parsePayload m.data = some ex)
    (himg : env.decodeImage ex.imageData = some img) :
    processRecord env s m = encodeAndWrite env s m (deriveTopic m.channel.topic) ex img := by
  simp only [processRecord, hschema]
  rw [if_neg (by simp [hname, henc])]
  simp only [transcodeStep, hds, hd]
  rw [if_pos htgt]
  simp only [hex, himg]

/-- When the encoder's access unit for this call is non-empty, the
transcode tail succeeds and appends, after any creation/registration
events, exactly one video-write event whose record copies the source
record's log time, publish time and sequence number. -/
theorem encodeAndWrite_write (env : Env) (s : St) (m : Message) (topic : String)
    (ex : Extracted) (img : Raster)
    (hbs : env.encode topic (encFrames s topic) img ≠ []) :
    ∃ s' pre w, encodeAndWrite env s m topic ex img = StepResult.ok s' ∧
      s'.events = s.events ++ (pre ++ [Event.wroteVideo w]) ∧
      w.logTime = m.logTime ∧ w.publishTime = m.publishTime ∧ w.sequence = m.sequence := by
  have hpos : (env.encode topic (encFrames s topic) img).length > 0 :=
    List.length_pos.mpr hbs
  simp only [encodeAndWrite]
  cases hE : lookupKey s.encoders topic with
  | some e =>
    simp only [ensureEncoder, hE]
    cases hC : lookupKey s.channels topic with
    | some ch =>
      simp only [ensureChannel, hC]
      rw [if_pos hpos]
      exact ⟨_, [], assembledMsg env m ch ex (env.encode topic (encFrames s topic) img),
        rfl, by simp, rfl, rfl, rfl⟩
    | none =>
      simp only [ensureChannel, hC]
      rw [if_pos hpos]
      refine ⟨_, [Event.channelRegistered topic],
        assembledMsg env m
          { topic := topic, messageEncoding := "protobuf",
            schema := some (compressedVideoSchema env), metadata := [] }
          ex (env.encode topic (encFrames s topic) img), rfl, by simp, rfl, rfl, rfl⟩
  | none =>
    simp only [ensureEncoder, hE]
    cases hC : lookupKey s.channels topic with
    | some ch =>
      simp only [ensureChannel, hC]
      rw [if_pos hpos]
      exact ⟨_, [Event.encoderCreated topic],
        assembledMsg env m ch ex (env.encode topic (encFrames s topic) img),
        rfl, by simp, rfl, rfl, rfl⟩
    | none =>
      simp only [ensureChannel, hC]
      rw [if_pos hpos]
      refine ⟨_, [Event.encoderCreated topic, Event.channelRegistered topic],
        assembledMsg env m
          { topic := topic, messageEncoding := "protobuf",
            schema := some (compressedVideoSchema env), metadata := [] }
          ex (env.encode topic (encFrames s topic) img), rfl, by simp, rfl, rfl, rfl⟩

/-- When the encoder's access unit for this call is empty, the transcode
tail still succeeds, appends no write event, and — when the output channel
does not exist yet — still creates and registers it. -/
theorem encodeAndWrite_skip (env : Env) (s : St) (m : Message) (topic : String)
    (ex : Extracted) (img : Raster)
    (hbs : env.encode topic (encFrames s topic) img = []) :
    ∃ s', encodeAndWrite env s m topic ex img = StepResult.ok s' ∧
      writesOf s'.events = writesOf s.events ∧
      (lookupKey s.channels topic = none → Event.channelRegistered topic ∈ s'.events) := by
  have hlen : ¬ ((env.encode topic (encFrames s topic) img).length > 0) := by
    rw [hbs]; simp
  simp only [encodeAndWrite]
  cases hE : lookupKey s.encoders topic with
  | some e =>
    simp only [ensureEncoder, hE]
    cases hC : lookupKey s.channels topic with
    | some ch =>
      simp only [ensureChannel, hC]
      rw [if_neg hlen]
      exact ⟨_, rfl, rfl, fun h => Option.noConfusion h⟩
    | none =>
      simp only [ensureChannel, hC]
      rw [if_neg hlen]
      refine ⟨_, rfl, ?_, fun _ => by simp⟩
      simp [writesOf_append, writesOf, isWriteEvent]
  | none =>
    simp only [ensureEncoder, hE]
    cases hC : lookupKey s.channels topic with
    | some ch =>
      simp only [ensureChannel, hC]
      rw [if_neg hlen]
      refine ⟨_, rfl, ?_, fun h => Option.noConfusion h⟩
      simp [writesOf_append, writesOf, isWriteEvent]
    | none =>
      simp only [ensureChannel, hC]
      rw [if_neg hlen]
      refine ⟨_, rfl, ?_, fun _ => by simp⟩
      simp [writesOf_append, writesOf, isWriteEvent]

/-- Claim C2: a matching record that produces an emitted output record
yields an output record whose log timestamp, publish timestamp and
sequence number equal the source record's fields exactly. -/
theorem C2_timingPreserved (env : Env) (s : St) (m : Message) (schema : Schema)
    (ds : List FileDescr) (d : FileDescr) (ex : Extracted) (img : Raster)
    (hschema : m.channel.schema = some schema)
    (hname : schema.name = "foxglove.CompressedImage")
    (henc : schema.encoding = "protobuf")
    (hds : env.parseDescriptorSet schema.data = some ds)
    (hd : ds.get? 1 = some d)
    (htgt : targetTypeName ∈ d.messageNames)
    (hex : env.parsePayload m.data = some ex)
    (himg : env.decodeImage ex.imageData = some img)
    (hbs : env.encode (deriveTopic m.channel.topic)
             (encFrames s (deriveTopic m.channel.topic)) img ≠ []) :
    ∃ s' pre w, processRecord env s m = StepResult.ok s' ∧
      s'.events = s.events ++ (pre ++ [Event.wroteVideo w]) ∧
      w.logTime = m.logTime ∧ w.publishTime = m.publishTime ∧ w.sequence = m.sequence := by
  rw [processRecord_transcodes env s m schema ds d ex img hschema hname henc hds hd htgt hex himg]
  exact encodeAndWrite_write env s m _ ex img hbs

/-- Witness for C2 at a concrete matching record with a non-empty
bitstream. -/
theorem C2_witness :
    ∃ s' pre w, processRecord goodEnv initSt camMsg = StepResult.ok s' ∧
      s'.events = initSt.events ++ (pre ++ [Event.wroteVideo w]) ∧
      w.logTime = camMsg.logTime ∧ w.publishTime = camMsg.publishTime ∧
      w.sequence = camMsg.sequence :=
  C2_timingPreserved goodEnv initSt camMsg imgSchema _ _ _ _ rfl rfl rfl rfl rfl
    (by decide) rfl rfl (by decide)

/-- Claim C4: when a matching record's image decodes but the encoder
returns a zero-length bitstream, no record is written for it, the step
succeeds, and the loop continues with the next record. -/
theorem C4_emptyBitstreamSkip (env : Env) (s : St) (m : Message) (schema : Schema)
    (ds : List FileDescr) (d : FileDescr) (ex : Extracted) (img : Raster)
    (hschema : m.channel.schema = some schema)
    (hname : schema.name = "foxglove.CompressedImage")
    (henc : schema.encoding = "protobuf")
    (hds : env.parseDescriptorSet schema.data = some ds)
    (hd : ds.get? 1 = some d)
    (htgt : targetTypeName ∈ d.messageNames)
    (hex : env.parsePayload m.data = some ex)
    (himg : env.decodeImage ex.imageData = some img)
    (hbs : env.encode (deriveTopic m.channel.topic)
             (encFrames s (deriveTopic m.channel.topic)) img = []) :
    ∃ s', processRecord env s m = StepResult.ok s' ∧
      writesOf s'.events = writesOf s.events ∧
      ∀ rest, runRecords env s (m :: rest) = runRecords env s' rest := by
  obtain ⟨s', h1, h2, _⟩ := encodeAndWrite_skip env s m _ ex img hbs
  have hp : processRecord env s m = StepResult.ok s' := by
    rw [processRecord_transcodes env s m schema ds d ex img hschema hname henc hds hd htgt hex himg]
    exact h1
  exact ⟨s', hp, h2, fun rest => by simp [runRecords, hp]⟩

/-- Witness for C4 at a concrete matching record with an empty bitstream. -/
theorem C4_witness :
    ∃ s', processRecord emptyBitstreamEnv initSt camMsg = StepResult.ok s' ∧
      writesOf s'.events = writesOf initSt.events ∧
      ∀ rest, runRecords emptyBitstreamEnv initSt (camMsg :: rest) =
        runRecords emptyBitstreamEnv s' rest :=
  C4_emptyBitstreamSkip emptyBitstreamEnv initSt camMsg imgSchema _ _ _ _ rfl rfl rfl
    rfl rfl (by decide) rfl rfl rfl

/-- Claim C10: when the first matching record on a topic reaches the
transcode tail, the derived output channel is created and registered even
if that record's encoded bitstream is empty, and no record is written —
so a run can end with a registered output channel carrying zero records. -/
theorem C10_registerDespiteEmpty (env : Env) (s : St) (m : Message) (schema : Schema)
    (ds : List FileDescr) (d : FileDescr) (ex : Extracted) (img : Raster)
    (hschema : m.channel.schema = some schema)
    (hname : schema.name = "foxglove.CompressedImage")
    (henc : schema.encoding = "protobuf")
    (hds : env.parseDescriptorSet schema.data = some ds)
    (hd : ds.get? 1 = some d)
    (htgt : targetTypeName ∈ d.messageNames)
    (hex : env.parsePayload m.data = some ex)
    (himg : env.decodeImage ex.imageData = some img)
    (hbs : env.encode (deriveTopic m.channel.topic)
             (encFrames s (deriveTopic m.channel.topic)) img = [])
    (hchan : lookupKey s.channels (deriveTopic m.channel.topic) = none) :
    ∃ s', processRecord env s m = StepResult.ok s' ∧
      Event.channelRegistered (deriveTopic m.channel.topic) ∈ s'.events ∧
      writesOf s'.events = writesOf s.events := by
  obtain ⟨s', h1, h2, h3⟩ := encodeAndWrite_skip env s m _ ex img hbs
  refine ⟨s', ?_, h3 hchan, h2⟩
  rw [processRecord_transcodes env s m schema ds d ex img hschema hname henc hds hd htgt hex himg]
  exact h1

/-- Witness for C10: the first matching record of a run, with an encoder
that emits nothing, still registers the derived output channel. -/
theorem C10_witness :
    ∃ s', processRecord emptyBitstreamEnv initSt camMsg = StepResult.ok s' ∧
      Event.channelRegistered (deriveTopic camMsg.channel.topic) ∈ s'.events ∧
      writesOf s'.events = writesOf initSt.events :=
  C10_registerDespiteEmpty emptyBitstreamEnv initSt camMsg imgSchema _ _ _ _ rfl rfl
    rfl rfl rfl (by decide) rfl rfl rfl rfl

theorem lookupKey_isSome_bumpFrames (l : List (String × EncSt)) (t u : String) :
    (lookupKey (bumpFrames l t) u).isSome = (lookupKey l u).isSome := by
  induction l with
  | nil => rfl
  | cons p rest ih =>
    obtain ⟨k, v⟩ := p
    simp only [bumpFrames]
    by_cases hk : k = t
    · simp only [if_pos hk, lookupKey]
      by_cases hu : k = u <;> simp [hu]
    · simp only [if_neg hk, lookupKey]
      by_cases hu : k = u <;> simp [hu, ih]

@[simp] theorem encoderCreations_nil : encoderCreations [] = [] := rfl

@[simp] theorem encoderCreations_cre (t : String) :
    encoderCreations [Event.encoderCreated t] = [t] := rfl

@[simp] theorem encoderCreations_reg (t : String) :
    encoderCreations [Event.channelRegistered t] = [] := rfl

@[simp] theorem encoderCreations_wp (m : Message) :
    encoderCreations [Event.wrotePass m] = [] := rfl

@[simp] theorem encoderCreations_wv (m : Message) :
    encoderCreations [Event.wroteVideo m] = [] := rfl

@[simp] theorem channelRegistrations_nil : channelRegistrations [] = [] := rfl

@[simp] theorem channelRegistrations_cre (t : String) :
    channelRegistrations [Event.encoderCreated t] = [] := rfl

@[simp] theorem channelRegistrations_reg (t : String) :
    channelRegistrations [Event.channelRegistered t] = [t] := rfl

@[simp] theorem channelRegistrations_wp (m : Message) :
    channelRegistrations [Event.wrotePass m] = [] := rfl

@[simp] theorem channelRegistrations_wv (m : Message) :
    channelRegistrations [Event.wroteVideo m] = [] := rfl

/-- The driver-state invariant behind claim C3: each per-topic resource is
created at most once (no duplicate topics among creation or registration
events), the association-list keys are exactly the topics already created,
every video write is preceded by its channel's registration, and the
channel cached under a topic key carries that topic. -/
structure StInv (s : St) : Prop where
  creNodup : (encoderCreations s.events).Nodup
  regNodup : (channelRegistrations s.events).Nodup
  encKeys : ∀ t, (lookupKey s.encoders t).isSome = true ↔ t ∈ encoderCreations s.events
  chKeys : ∀ t, (lookupKey s.channels t).isSome = true ↔ t ∈ channelRegistrations s.events
  wf : WellFormedEvents s.events
  chTopic : ∀ t ch, lookupKey s.channels t = some ch → ch.topic = t

theorem wf_append {evs d : List Event}
    (h1 : WellFormedEvents evs)
    (h2 : ∀ a w b, d = a ++ Event.wroteVideo w :: b →
      w.channel.topic ∈ channelRegistrations (evs ++ a)) :
    WellFormedEvents (evs ++ d) := by
  intro pre w post heq
  rcases List.append_eq_append_iff.mp heq with ⟨a, ha1, ha2⟩ | ⟨c, hc1, hc2⟩
  · have := h2 a w post ha2
    rwa [← ha1] at this
  · cases c with
    | nil =>
      have hd : d = [] ++ Event.wroteVideo w :: post := by simpa using hc2.symm
      have := h2 [] w post hd
      rw [hc1] at this
      simpa using this
    | cons y c2 =>
      injection hc2 with hy hrest
      have := h1 pre w c2 (by rw [hc1, ← hy])
      exact this

theorem wf_append_nowrite {evs d : List Event}
    (h1 : WellFormedEvents evs)
    (hnw : ∀ w, Event.wroteVideo w ∉ d) :
    WellFormedEvents (evs ++ d) := by
  refine wf_append h1 ?_
  intro a w b hd
  exact absurd (hd ▸ List.mem_append_right a (List.mem_cons_self _ _)) (hnw w)

/-- Appending events that create no encoder, register no channel and write
no video record preserves the invariant, provided any video write in the
delta is justified. -/
theorem StInv_appendEvents {s : St} {d : List Event} (h : StInv s)
    (hcre : encoderCreations d = [])
    (hreg : channelRegistrations d = [])
    (hwf : ∀ a w b, d = a ++ Event.wroteVideo w :: b →
      w.channel.topic ∈ channelRegistrations (s.events ++ a)) :
    StInv { s with events := s.events ++ d } := by
  refine ⟨?_, ?_, ?_, ?_, wf_append h.wf hwf, h.chTopic⟩
  · rw [encoderCreations_append, hcre, List.append_nil]
    exact h.creNodup
  · rw [channelRegistrations_append, hreg, List.append_nil]
    exact h.regNodup
  · intro u
    rw [encoderCreations_append, hcre, List.append_nil]
    exact h.encKeys u
  · intro u
    rw [channelRegistrations_append, hreg, List.append_nil]
    exact h.chKeys u

/-- A pass-through write preserves the invariant. -/
theorem StInv_passThrough {s : St} (m : Message) (h : StInv s) :
    StInv { s with events := s.events ++ [Event.wrotePass m] } := by
  refine StInv_appendEvents h rfl rfl ?_
  intro a w b hd
  cases a with
  | nil =>
    simp only [List.nil_append] at hd
    injection hd with h1 h2
    exact Event.noConfusion h1
  | cons y a2 =>
    injection hd with hy hrest
    cases a2 <;> simp at hrest

/-- A video write on an already-registered topic preserves the invariant. -/
theorem StInv_write {s : St} {w : Message} (h : StInv s)
    (hreg : w.channel.topic ∈ channelRegistrations s.events) :
    StInv { s with events := s.events ++ [Event.wroteVideo w] } := by
  refine StInv_appendEvents h rfl rfl ?_
  intro a w2 b hd
  cases a with
  | nil =>
    simp only [List.nil_append] at hd
    injection hd with h1 h2
    injection h1 with hw2
    rw [List.append_nil, ← hw2]
    exact hreg
  | cons y a2 =>
    injection hd with hy hrest
    cases a2 <;> simp at hrest

/-- Creating a missing encoder preserves the invariant. -/
theorem StInv_ensureEncoder {s : St} (t : String) (img : Raster) (h : StInv s) :
    StInv (ensureEncoder s t img) := by
  unfold ensureEncoder
  cases hE : lookupKey s.encoders t with
  | some e => exact h
  | none =>
    have hnot : t ∉ encoderCreations s.events := by
      intro hmem
      have := (h.encKeys t).2 hmem
      rw [hE] at this
      simp at this
    refine ⟨?_, ?_, ?_, ?_, ?_, h.chTopic⟩
    · rw [encoderCreations_append]
      refine List.Nodup.append h.creNodup (List.nodup_singleton t) ?_
      intro x hx hx2
      simp only [encoderCreations, List.filterMap_cons, List.filterMap_nil] at hx2
      simp at hx2
      subst hx2
      exact hnot hx
    · rw [channelRegistrations_append]
      simpa using h.regNodup
    · intro u
      rw [encoderCreations_append]
      simp only [lookupKey]
      by_cases hu : t = u
      · subst hu
        simp [encoderCreations]
      · rw [if_neg hu]
        rw [h.encKeys u]
        have : encoderCreations [Event.encoderCreated t] = [t] := rfl
        rw [this]
        simp [List.mem_append, Ne.symm hu]
    · intro u
      rw [channelRegistrations_append]
      simpa using h.chKeys u
    · refine wf_append_nowrite h.wf ?_
      intro w hw
      simp at hw

/-- Submitting a frame to an encoder (frame-count bump) preserves the
invariant. -/
theorem StInv_bump {s : St} (t : String) (h : StInv s) :
    StInv { s with encoders := bumpFrames s.encoders t } := by
  refine ⟨h.creNodup, h.regNodup, ?_, h.chKeys, h.wf, h.chTopic⟩
  intro u
  rw [show ({ s with encoders := bumpFrames s.encoders t } : St).encoders
      = bumpFrames s.encoders t from rfl]
  rw [lookupKey_isSome_bumpFrames]
  exact h.encKeys u

/-- Resolving (or creating and registering) the output channel preserves
the invariant; the returned channel carries the requested topic and that
topic is registered in the resulting log. -/
theorem StInv_ensureChannel {s : St} (env : Env) (t : String) (h : StInv s) :
    StInv (ensureChannel env s t).2 ∧
    (ensureChannel env s t).1.topic = t ∧
    t ∈ channelRegistrations (ensureChannel env s t).2.events := by
  unfold ensureChannel
  cases hC : lookupKey s.channels t with
  | some ch =>
    refine ⟨h, h.chTopic t ch hC, ?_⟩
    refine (h.chKeys t).1 ?_
    rw [hC]
    rfl
  | none =>
    have hnot : t ∉ channelRegistrations s.events := by
      intro hmem
      have := (h.chKeys t).2 hmem
      rw [hC] at this
      simp at this
    refine ⟨⟨?_, ?_, ?_, ?_, ?_, ?_⟩, rfl, ?_⟩
    · rw [encoderCreations_append]
      simpa using h.creNodup
    · rw [channelRegistrations_append]
      refine List.Nodup.append h.regNodup (List.nodup_singleton t) ?_
      intro x hx hx2
      simp only [channelRegistrations, List.filterMap_cons, List.filterMap_nil] at hx2
      simp at hx2
      subst hx2
      exact hnot hx
    · intro u
      rw [encoderCreations_append]
      simpa using h.encKeys u
    · intro u
      rw [channelRegistrations_append]
      simp only [lookupKey]
      by_cases hu : t = u
      · subst hu
        simp [channelRegistrations]
      · rw [if_neg hu]
        rw [h.chKeys u]
        have : channelRegistrations [Event.channelRegistered t] = [t] := rfl
        rw [this]
        simp [List.mem_append, Ne.symm hu]
    · refine wf_append_nowrite h.wf ?_
      intro w hw
      simp at hw
    · intro u ch hu
      simp only [lookupKey] at hu
      by_cases h2 : t = u
      · subst h2
        rw [if_pos rfl] at hu
        injection hu with hu2
        rw [← hu2]
      · rw [if_neg h2] at hu
        exact h.chTopic u ch hu
    · rw [channelRegistrations_append]
      have : channelRegistrations [Event.channelRegistered t] = [t] := rfl
      rw [this]
      simp

/-- The transcode tail preserves the invariant. -/
theorem StInv_encodeAndWrite (env : Env) {s : St} (m : Message) (topic : String)
    (ex : Extracted) (img : Raster) (h : StInv s) :
    StInv (stateOf (encodeAndWrite env s m topic ex img)) := by
  simp only [encodeAndWrite]
  have h1 := StInv_ensureEncoder topic img h
  have h2 := StInv_bump (s := ensureEncoder s topic img) topic h1
  obtain ⟨h3, htop, hmem⟩ :=
    StInv_ensureChannel (s := { ensureEncoder s topic img with
      encoders := bumpFrames (ensureEncoder s topic img).encoders topic }) env topic h2
  by_cases hbs : (env.encode topic (encFrames s topic) img).length > 0
  · rw [if_pos hbs]
    simp only [stateOf]
    refine StInv_write h3 ?_
    simp only [assembledMsg]
    rw [htop]
    exact hmem
  · rw [if_neg hbs]
    simp only [stateOf]
    exact h3

/-- Processing one record preserves the invariant. -/
theorem StInv_processRecord (env : Env) {s : St} (m : Message) (h : StInv s) :
    StInv (stateOf (processRecord env s m)) := by
  simp only [processRecord]
  split
  · simpa [stateOf] using h
  · split
    · simp only [stateOf]
      exact StInv_passThrough m h
    · simp only [transcodeStep]
      split
      · simpa [stateOf] using h
      · split
        · simpa [stateOf] using h
        · split
          · split
            · simpa [stateOf] using h
            · split
              · simpa [stateOf] using h
              · exact StInv_encodeAndWrite env m _ _ _ h
          · simpa [stateOf] using h

/-- The record loop preserves the invariant. -/
theorem StInv_runRecords (env : Env) (records : List Message) :
    ∀ s : St, StInv s → StInv (stateOf (runRecords env s records)) := by
  induction records with
  | nil =>
    intro s h
    exact h
  | cons m rest ih =>
    intro s h
    simp only [runRecords]
    have hp := StInv_processRecord env m h
    cases hr : processRecord env s m with
    | ok s1 =>
      rw [hr] at hp
      exact ih s1 hp
    | err e s1 =>
      rw [hr] at hp
      simpa [stateOf] using hp
    | fault s1 =>
      rw [hr] at hp
      simpa [stateOf] using hp

/-- The invariant holds at the start of a run. -/
theorem initSt_inv : StInv initSt := by
  refine ⟨List.nodup_nil, List.nodup_nil, ?_, ?_, ?_, ?_⟩
  · intro t
    simp [initSt, lookupKey, encoderCreations]
  · intro t
    simp [initSt, lookupKey, channelRegistrations]
  · intro pre w post hpre
    exact absurd hpre (by simp [initSt])
  · intro t ch hlk
    simp [initSt, lookupKey] at hlk

/-- Claim C3: over any run, at most one encoder-creation event and at most
one channel-registration event occur per derived topic (the topic lists of
both event kinds are duplicate-free), and every video record written on a
topic is preceded in the log by that topic's channel registration —
registration happens once, before the first output record of the topic.
Subsequent resolutions return the cached entry: the association-list keys
coincide with the already-created topics (`StInv.encKeys`/`chKeys`), so an
existing key is never re-created. -/
theorem C3_registryOnce (env : Env) (records : List Message) :
    (encoderCreations (stateOf (runRecords env initSt records)).events).Nodup ∧
    (channelRegistrations (stateOf (runRecords env initSt records)).events).Nodup ∧
    WellFormedEvents (stateOf (runRecords env initSt records)).events := by
  have h := StInv_runRecords env records initSt initSt_inv
  exact ⟨h.creNodup, h.regNodup, h.wf⟩

/-- Witness for C3 on a concrete run with a repeated matching topic. -/
theorem C3_witness :
    (encoderCreations (stateOf (runRecords goodEnv initSt [camMsg, camMsg, imuMsg])).events).Nodup ∧
    (channelRegistrations (stateOf (runRecords goodEnv initSt [camMsg, camMsg, imuMsg])).events).Nodup ∧
    WellFormedEvents (stateOf (runRecords goodEnv initSt [camMsg, camMsg, imuMsg])).events :=
  C3_registryOnce goodEnv [camMsg, camMsg, imuMsg]

theorem runRecords_append (env : Env) (s : St) (l1 l2 : List Message) :
    runRecords env s (l1 ++ l2) =
      match runRecords env s l1 with
      | StepResult.ok s1 => runRecords env s1 l2
      | r => r := by
  induction l1 generalizing s with
  | nil => simp [runRecords]
  | cons m rest ih =>
    simp only [List.cons_append, runRecords]
    cases processRecord env s m with
    | ok s1 => exact ih s1
    | err e s1 => rfl
    | fault s1 => rfl

/-- A run whose argument parse yields a usable configuration and whose
record loop returns an `anyhow` error ends with exit code 1, the error on
the error stream, `finish` skipped, and exactly the events accumulated up
to the failure. -/
theorem mainRun_err (env : Env) (argv : List String) (records : List Message)
    (c : CliState) (e : RunError) (s0 : St) (p : String)
    (hargs : parseArgs (initCli "compressed_video.mcap") (argv.drop 1) = CliResult.ok c)
    (hwu : c.warmup = false)
    (hin : c.input = some p)
    (hrun : runRecords env initSt records = StepResult.err e s0) :
    mainRun env argv records =
      { exitCode := 1, stderrErr := some e, finished := false, events := s0.events } := by
  rw [List.drop_one] at hargs
  simp [mainRun, readIt, hargs, hwu, hin, hrun]

/-- Claim C7: malformed schema bytes on a matching-signature channel abort
the run at that record with `SchemaParseError`: the error reaches `main`,
is reported on the error stream, the process exits with code 1, the
writer's `finish` step is not performed, and no event past the point of
failure is produced. -/
theorem C7_schemaParseAbort (env : Env) (records pre rest : List Message)
    (m : Message) (schema : Schema) (s0 : St)
    (hrec : records = pre ++ m :: rest)
    (hpre : runRecords env initSt pre = StepResult.ok s0)
    (hschema : m.channel.schema = some schema)
    (hname : schema.name = "foxglove.CompressedImage")
    (henc : schema.encoding = "protobuf")
    (hparse : env.parseDescriptorSet schema.data = none) :
    mainRun env ["mcap-videoify", "-i", "input.mcap"] records =
      { exitCode := 1, stderrErr := some RunError.schemaParse,
        finished := false, events := s0.events } := by
  have hm : processRecord env s0 m = StepResult.err RunError.schemaParse s0 := by
    simp only [processRecord, hschema]
    rw [if_neg (by simp [hname, henc])]
    simp only [transcodeStep, hparse]
  have hrun : runRecords env initSt records = StepResult.err RunError.schemaParse s0 := by
    rw [hrec, runRecords_append, hpre]
    simp only [runRecords, hm]
  exact mainRun_err env _ records
    { input := some "input.mcap", output := "compressed_video.mcap",
      silent := false, warmup := false }
    RunError.schemaParse s0 "input.mcap" rfl rfl rfl hrun

/-- Witness for C7: a single matching record whose schema bytes fail to
parse aborts the concrete run with exit code 1 and no finalize. -/
theorem C7_witness :
    mainRun defaultEnv ["mcap-videoify", "-i", "input.mcap"] [camMsg] =
      { exitCode := 1, stderrErr := some RunError.schemaParse,
        finished := false, events := initSt.events } :=
  C7_schemaParseAbort defaultEnv [camMsg] [] [] camMsg imgSchema initSt rfl rfl rfl
    rfl rfl rfl

theorem hasSegment_append (pat l1 l2 : List Char) (h : hasSegment pat l2 = true) :
    hasSegment pat (l1 ++ l2) = true := by
  induction l1 with
  | nil => simpa using h
  | cons c cs ih =>
    show (startsWithChars pat (c :: (cs ++ l2)) || hasSegment pat (cs ++ l2)) = true
    rw [ih]
    simp

theorem mentionsUsage_helpMsg : mentionsUsage getHelpMsg = true := by decide

theorem mentionsUsage_unexpected (a : String) : mentionsUsage (unexpectedMsg a) = true := by
  unfold mentionsUsage unexpectedMsg
  rw [str_data_append]
  exact hasSegment_append _ _ _ mentionsUsage_helpMsg

/-- Claim C9 (counterexample): on the command line `mcap-videoify -i` — an
input flag with no following value — the process does exit with code 1,
but the message printed on the error stream is exactly the missing-value
error line, which does not contain the usage text; no usage message is
printed, contradicting the claim. -/
theorem C9_counterexample :
    mainRun defaultEnv ["mcap-videoify", "-i"] [] =
      { exitCode := 1,
        stderrErr := some (RunError.cliBail "Missing value for --input/-i argument"),
        finished := false, events := [] } ∧
    mentionsUsage ("Error: " ++ "Missing value for --input/-i argument") = false := by
  exact ⟨rfl, by decide⟩

/-- Claim C9 (amended): an argument the loop does not recognize causes an
error exit with code 1 whose message contains the usage text; a trailing
input or output flag with no following value causes an error exit with
code 1 whose message names the flag but contains no usage text; in both
cases the bail error reaches `main`, is printed on the error stream, and
the process exits with code 1 before touching any file. -/
theorem C9_amendedCli :
    (∀ (c : CliState) (a : String) (rest : List String),
      a ∉ knownFlags →
      parseArgs c (a :: rest) = CliResult.bail (unexpectedMsg a) ∧
      mentionsUsage (unexpectedMsg a) = true) ∧
    (∀ c : CliState,
      parseArgs c ["--input"] = CliResult.bail "Missing value for --input/-i argument" ∧
      parseArgs c ["-i"] = CliResult.bail "Missing value for --input/-i argument" ∧
      parseArgs c ["--output"] = CliResult.bail "Missing value for --output/-o argument" ∧
      parseArgs c ["-o"] = CliResult.bail "Missing value for --output/-o argument") ∧
    (mentionsUsage ("Error: " ++ "Missing value for --input/-i argument") = false ∧
     mentionsUsage ("Error: " ++ "Missing value for --output/-o argument") = false) ∧
    (∀ (env : Env) (argv : List String) (records : List Message) (msg : String),
      parseArgs (initCli "compressed_video.mcap") (argv.drop 1) = CliResult.bail msg →
      mainRun env argv records =
        { exitCode := 1, stderrErr := some (RunError.cliBail msg),
          finished := false, events := [] }) := by
  refine ⟨?_, ?_, ⟨by decide, by decide⟩, ?_⟩
  · intro c a rest ha
    have h1 : ¬(a = "--input" ∨ a = "-i") := by
      rintro (h | h) <;> exact ha (by simp [knownFlags, h])
    have h2 : ¬(a = "--output" ∨ a = "-o") := by
      rintro (h | h) <;> exact ha (by simp [knownFlags, h])
    have h3 : ¬(a = "--silent") := fun h => ha (by simp [knownFlags, h])
    have h4 : ¬(a = "--warm-up") := fun h => ha (by simp [knownFlags, h])
    have h5 : ¬(a = "--help" ∨ a = "-h") := by
      rintro (h | h) <;> exact ha (by simp [knownFlags, h])
    refine ⟨?_, mentionsUsage_unexpected a⟩
    unfold parseArgs
    rw [if_neg h1, if_neg h2, if_neg h3, if_neg h4, if_neg h5]
  · intro c
    exact ⟨rfl, rfl, rfl, rfl⟩
  · intro env argv records msg hpa
    rw [List.drop_one] at hpa
    simp [mainRun, readIt, hpa]

/-- Witness for the amended C9 at concrete command lines. -/
theorem C9_witness :
    (parseArgs (initCli "compressed_video.mcap") ["--bogus"] =
       CliResult.bail (unexpectedMsg "--bogus") ∧
     mentionsUsage (unexpectedMsg "--bogus") = true) ∧
    mainRun defaultEnv ["mcap-videoify", "--output"] [] =
      { exitCode := 1,
        stderrErr := some (RunError.cliBail "Missing value for --output/-o argument"),
        finished := false, events := [] } := by
  constructor
  · exact C9_amendedCli.1 (initCli "compressed_video.mcap") "--bogus" [] (by decide)
  · refine C9_amendedCli.2.2.2 defaultEnv ["mcap-videoify", "--output"] [] _ ?_
    exact (C9_amendedCli.2.1 (initCli "compressed_video.mcap")).2.2.1

end Videoify
